import Mathlib

/-!
# Verification of the `parallel` command-execution engine

A shallow embedding, in Lean 4, of the core of the `parallel` repository
(a Rust job multiplexer), together with theorems settling a list of claims
made by its natural-language specification.

Each definition mirrors one Rust item of the source tree; the file of
origin is named in its doc comment.  Rust functions that read files are
given the file's lines (or the remaining stream) as an explicit argument;
a Rust panic (`unwrap` on `None`, index underflow, `unreachable!`) is
modelled by `Option.none` wrapped around the function's result.  Machine
integers are modelled as `Nat`, with an explicit `% 2 ^ 64` where a `u64`
multiplication can wrap.  Byte strings are modelled at the level of
`Char` lists (all inputs of interest are ASCII).
-/

/-- Character constants, by code point, for characters that are awkward to
write literally. -/
def lbrace : Char := Char.ofNat 123

def rbrace : Char := Char.ofNat 125

def bslash : Char := Char.ofNat 92

def dquote : Char := Char.ofNat 34

def squote : Char := Char.ofNat 39

def btick : Char := Char.ofNat 96

/-- Concatenation of a list of strings, in order. -/
def strConcat : List String → String
  | [] => ""
  | s :: rest => s ++ strConcat rest

/-- Join a list of strings with single-space separators (no trailing
separator). -/
def joinSpaces : List String → String
  | [] => ""
  | [s] => s
  | s :: rest => s ++ " " ++ joinSpaces rest

/-! ## Tokenizer (`src/tokenizer/mod.rs`) -/

/-- `TokenErr` from `src/tokenizer/mod.rs`: either an I/O failure while
reading the Nth input, or an out-of-bounds positional reference. -/
inductive TokenErr where
  | file
  | outOfBounds
deriving DecidableEq

/-- `Token` from `src/tokenizer/mod.rs`.  `argument` carries the literal
text; `removeSuffix` and `baseAndSuffix` carry the suffix pattern. -/
inductive Token where
  | argument (text : String)
  | baseAndExt
  | baseAndSuffix (pat : String)
  | basename
  | dirname
  | job
  | placeholder
  | removeExtension
  | removeSuffix (pat : String)
  | slot
deriving DecidableEq

/-- Modelled from the spec: `src/tokenizer/functions.rs` is absent from
`src/`.  BASENAME is "the input with any leading directory portion
(before the last `/`) removed". -/
def basenameStr (input : String) : String :=
  String.mk ((input.data.reverse.takeWhile (fun c => c ≠ '/')).reverse)

/-- Modelled from the spec: DIRNAME is "the input with the final path
component removed; empty when no `/` is present". -/
def dirnameStr (input : String) : String :=
  String.mk (((input.data.reverse.dropWhile (fun c => c ≠ '/')).drop 1).reverse)

/-- Modelled from the spec: REMOVE_EXTENSION is "the input with the final
`.` and everything after it removed; no-op when no `.` after the last
`/`". -/
def removeExtensionStr (input : String) : String :=
  match input.data.reverse.dropWhile (fun c => c ≠ '.' ∧ c ≠ '/') with
  | '.' :: rest => String.mk rest.reverse
  | _ => input

/-- Modelled from the spec: REMOVE_SUFFIX(pat) is "the input with a
trailing literal `pat` removed; no-op when the input does not end with
`pat`". -/
def removePattern (input pat : String) : String :=
  if pat.data.isSuffixOf input.data then
    String.mk (input.data.take (input.data.length - pat.data.length))
  else input

/-- Decimal value of a list of ASCII digits, as `str::parse::<usize>`
computes it on the digit prefix isolated by `match_token`. -/
def parseNatDigits (digits : List Char) : Nat :=
  digits.foldl (fun acc c => acc * 10 + (c.toNat - 48)) 0

/-- `Number::into_argument` from `src/tokenizer/mod.rs`.  The Rust code
opens the spool file and reads line `self.id - 1`; here the spool's lines
are the explicit `fileLines` (the file is assumed readable).  `none`
models a panic: the `usize` underflow of `self.id - 1` when `id = 0`, the
`.unwrap()` on `Iterator::nth` past the end of the file, and the
`unreachable!()` arms. -/
def intoArgument (id : Nat) (token : Token) (fileLines : List String) :
    Option (Except TokenErr String) :=
  if id = 0 then none
  else
    match fileLines.get? (id - 1) with
    | none => none
    | some input =>
      match token with
      | .argument _ => none
      | .basename => some (.ok (basenameStr input))
      | .baseAndExt => some (.ok (basenameStr (removeExtensionStr input)))
      | .baseAndSuffix pat => some (.ok (basenameStr (removePattern input pat)))
      | .dirname => some (.ok (dirnameStr input))
      | .job => none
      | .placeholder => some (.ok input)
      | .removeExtension => some (.ok (removeExtensionStr input))
      | .removeSuffix pat => some (.ok (removePattern input pat))
      | .slot => none

/-- `match_token` from `src/tokenizer/mod.rs`, with an explicit fuel
argument standing in for the structural bound on its self-recursion (each
recursive call strips at least one leading digit, so `pattern.length + 1`
units of fuel always suffice; running out of fuel cannot happen and is
mapped to `none`).  `is_numeric` is modelled as ASCII `isDigit`, which
agrees with Rust on all ASCII templates.  Returns `none` for a panic,
`some (.error e)` for `Err(e)`, and `some (.ok r)` for `Ok(r)` where
`r : Option Token` distinguishes `Some(token)` from `None`. -/
def matchTokenFuel (fuel : Nat) (pattern : List Char) (fileLines : List String)
    (nargs : Nat) : Option (Except TokenErr (Option Token)) :=
  match fuel with
  | 0 => none
  | fuel + 1 =>
    let p := String.mk pattern
    if p = "." then some (.ok (some .removeExtension))
    else if p = "#" then some (.ok (some .job))
    else if p = "%" then some (.ok (some .slot))
    else if p = "/" then some (.ok (some .basename))
    else if p = "//" then some (.ok (some .dirname))
    else if p = "/." then some (.ok (some .baseAndExt))
    else if p = "##" then some (.ok (some (.argument (Nat.repr nargs))))
    else if pattern.head? = some '^' ∧ 1 < pattern.length then
      some (.ok (some (.removeSuffix (String.mk (pattern.drop 1)))))
    else if pattern.take 2 = ['/', '^'] ∧ 2 < pattern.length then
      some (.ok (some (.baseAndSuffix (String.mk (pattern.drop 2)))))
    else
      let ndigits := (pattern.takeWhile Char.isDigit).length
      let nchars := pattern.length
      if ndigits ≠ 0 then
        let number := parseNatDigits (pattern.take ndigits)
        if ndigits = nchars then
          if number = 0 ∨ number > nargs then some (.error .outOfBounds)
          else
            match intoArgument number .placeholder fileLines with
            | none => none
            | some (.error e) => some (.error e)
            | some (.ok s) => some (.ok (some (.argument s)))
        else
          match matchTokenFuel fuel (pattern.drop ndigits) fileLines nargs with
          | none => none
          | some (.error e) => some (.error e)
          | some (.ok none) => some (.ok none)
          | some (.ok (some .job)) => some (.ok none)
          | some (.ok (some .slot)) => some (.ok none)
          | some (.ok (some token)) =>
            match intoArgument number token fileLines with
            | none => none
            | some (.error e) => some (.error e)
            | some (.ok s) => some (.ok (some (.argument s)))
      else some (.ok none)

/-- `match_token` at its sufficient fuel. -/
def matchToken (pattern : List Char) (fileLines : List String) (nargs : Nat) :
    Option (Except TokenErr (Option Token)) :=
  matchTokenFuel (pattern.length + 1) pattern fileLines nargs

/-- The byte loop of `tokenize` from `src/tokenizer/mod.rs`.  `tpl` is the
whole template (for the `&template[a..b]` slices), `rest` the bytes not
yet scanned, `id` the current index, `pm`/`ps` the `pattern_matching`
flag and `pattern_start`, `am`/`as_` the `argument_matching` flag and
`argument_start`, and `tokens` the accumulator. -/
def tokenizeGo (tpl : List Char) (fileLines : List String) (nargs : Nat) :
    List Char → Nat → Bool → Nat → Bool → Nat → List Token →
    Option (Except TokenErr (List Token))
  | [], _, pm, ps, am, as_, tokens =>
    if pm then some (.ok (tokens ++ [.argument (String.mk (tpl.drop ps))]))
    else if am then some (.ok (tokens ++ [.argument (String.mk (tpl.drop as_))]))
    else some (.ok tokens)
  | c :: rest, id, pm, ps, am, as_, tokens =>
    if c = lbrace ∧ pm = false then
      let tokens :=
        if am then tokens ++ [.argument (String.mk ((tpl.drop as_).take (id - as_)))]
        else tokens
      tokenizeGo tpl fileLines nargs rest (id + 1) true id false as_ tokens
    else if c = rbrace ∧ pm = true then
      if id = ps + 1 then
        tokenizeGo tpl fileLines nargs rest (id + 1) false ps am as_
          (tokens ++ [.placeholder])
      else
        match matchToken ((tpl.drop (ps + 1)).take (id - (ps + 1))) fileLines nargs with
        | none => none
        | some (.error e) => some (.error e)
        | some (.ok (some token)) =>
          tokenizeGo tpl fileLines nargs rest (id + 1) false ps am as_
            (tokens ++ [token])
        | some (.ok none) =>
          tokenizeGo tpl fileLines nargs rest (id + 1) false ps am as_
            (tokens ++ [.argument (String.mk ((tpl.drop ps).take (id + 1 - ps)))])
    else if pm = false ∧ am = false then
      tokenizeGo tpl fileLines nargs rest (id + 1) pm ps true id tokens
    else
      tokenizeGo tpl fileLines nargs rest (id + 1) pm ps am as_ tokens

/-- `tokenize` from `src/tokenizer/mod.rs`: scans the template into a
token list.  The Rust signature pushes into an `ArrayVec<[Token; 128]>`
and takes the spool path; here the token list is returned and the spool's
lines are `fileLines`.  `none` models a panic inside `match_token`. -/
def tokenize (template : List Char) (fileLines : List String) (nargs : Nat) :
    Option (Except TokenErr (List Token)) :=
  tokenizeGo template fileLines nargs template 0 false 0 false 0 []

/-- The tokenizer-failure branch of `main` (`src/main.rs` lines 137-142):
on `Err`, the error is printed and the process exits with code 1.
Returns `some code` when the branch exits, `none` when `main`
continues (or when `tokenize` panics). -/
def tokenizeExitCode (template : List Char) (fileLines : List String)
    (nargs : Nat) : Option Nat :=
  match tokenize template fileLines nargs with
  | some (.error _) => some 1
  | _ => none

/-- Modelled from the spec: `src/arguments/errors.rs` is absent from
`src/`.  Per spec section 7, argument-parser errors (`ParseErr`) print a
`parallel: ...` message and exit with code 1. -/
def parseErrExitCode : Nat := 1

/-! ## Flag bitfield (`src/arguments/mod.rs`) -/

def INPUTS_ARE_COMMANDS : Nat := 1

def PIPE_IS_ENABLED : Nat := 2

def SHELL_ENABLED : Nat := 4

def QUIET_MODE : Nat := 8

def VERBOSE_MODE : Nat := 16

def DASH_EXISTS : Nat := 32

def DRY_RUN : Nat := 64

def SHELL_QUOTE : Nat := 128

def ETA_FLAG : Nat := 256

def JOBLOG : Nat := 512

def JOBLOG_8601 : Nat := 1024

def ION_EXISTS : Nat := 2048

/-! ## Command builder (`src/execute/command.rs`) -/

/-- The placeholder test inside `append_argument`
(`src/execute/command.rs`): true when the template holds any of
`BaseAndExt | Basename | Dirname | Job | Placeholder | RemoveExtension |
RemoveSuffix(_) | Slot` (note: `BaseAndSuffix` is not in the `matches!`
list of the source). -/
def placeholderExists (command_template : List Token) : Bool :=
  command_template.any fun x =>
    match x with
    | .baseAndExt => true
    | .basename => true
    | .dirname => true
    | .job => true
    | .placeholder => true
    | .removeExtension => true
    | .removeSuffix _ => true
    | .slot => true
    | _ => false

/-- `append_argument` from `src/execute/command.rs`: when no placeholder
token is in use, a space and the input are pushed onto the argument
string. -/
def appendArgument (arguments : String) (command_template : List Token)
    (input : String) : String :=
  if !placeholderExists command_template then arguments ++ " " ++ input
  else arguments

/-- `ParallelCommand` from `src/execute/command.rs`.  `job_no` and
`job_total` are `&[u8]` decimal buffers in the source, modelled as the
decimal strings they hold. -/
structure ParallelCommand where
  slot_no : String
  job_no : String
  job_total : String
  input : String
  flags : Nat
  command_template : List Token

/-- One token's contribution in the non-pipe arm of `build_arguments`. -/
def buildToken (cmd : ParallelCommand) (arg : Token) : String :=
  match arg with
  | .argument text => text
  | .basename => basenameStr cmd.input
  | .baseAndExt => basenameStr (removeExtensionStr cmd.input)
  | .baseAndSuffix pat => basenameStr (removePattern cmd.input pat)
  | .dirname => dirnameStr cmd.input
  | .job => cmd.job_no
  | .placeholder => cmd.input
  | .removeExtension => removeExtensionStr cmd.input
  | .removeSuffix pat => removePattern cmd.input pat
  | .slot => cmd.slot_no

/-- One token's contribution in the pipe arm of `build_arguments` (only
literals, the job number and the slot are expanded). -/
def buildTokenPipe (cmd : ParallelCommand) (arg : Token) : String :=
  match arg with
  | .argument text => text
  | .job => cmd.job_no
  | .slot => cmd.slot_no
  | _ => ""

/-- `ParallelCommand::build_arguments` from `src/execute/command.rs`:
folds the template into `arguments`. -/
def buildArguments (cmd : ParallelCommand) (arguments : String) : String :=
  if cmd.flags &&& PIPE_IS_ENABLED ≠ 0 then
    cmd.command_template.foldl (fun acc arg => acc ++ buildTokenPipe cmd arg) arguments
  else
    cmd.command_template.foldl (fun acc arg => acc ++ buildToken cmd arg) arguments

/-! ## Dry-run renderer (`src/execute/dry.rs`) -/

/-- The escape set of `shell_quote` in `src/execute/dry.rs`. -/
def dryQuoteChar (c : Char) : Bool :=
  c = '$' ∨ c = ' ' ∨ c = bslash ∨ c = '>' ∨ c = '<' ∨ c = '^' ∨ c = '&' ∨
    c = '#' ∨ c = '!' ∨ c = '*' ∨ c = squote ∨ c = dquote ∨ c = btick ∨
    c = '~' ∨ c = lbrace ∨ c = rbrace ∨ c = '[' ∨ c = ']' ∨ c = '(' ∨
    c = ')' ∨ c = ';' ∨ c = '|' ∨ c = '?'

/-- `shell_quote` from `src/execute/dry.rs`: `none` when no character
needs escaping, otherwise the input with a backslash pushed before each
special character. -/
def dryShellQuote (command : String) : Option String :=
  if command.data.any dryQuoteChar then
    some (String.mk (command.data.flatMap fun c =>
      if dryQuoteChar c then [bslash, c] else [c]))
  else none

/-- One line of `dry_run` output (`src/execute/dry.rs`): the command built
with slot literal `"\x7bSLOT_ID\x7d"` and decimal `job_id`, the input
appended when not piping, shell-quoted when SHELL_QUOTE is set, then a
newline. -/
def dryRunLine (flags : Nat) (arguments : List Token) (total : Nat)
    (job_id : Nat) (input : String) : String :=
  let cmd : ParallelCommand :=
    { slot_no := "\x7bSLOT_ID\x7d", job_no := Nat.repr job_id,
      job_total := Nat.repr total, input := input, flags := flags,
      command_template := arguments }
  let buffer := buildArguments cmd ""
  let buffer :=
    if flags &&& PIPE_IS_ENABLED = 0 then
      appendArgument buffer cmd.command_template cmd.input
    else buffer
  let line :=
    if flags &&& SHELL_QUOTE ≠ 0 then (dryShellQuote buffer).getD buffer
    else buffer
  line ++ "\n"

/-- The `inputs.enumerate()` loop of `dry_run` (`src/execute/dry.rs`):
`job_id` is the 0-based value produced by `Iterator::enumerate`. -/
def dryRunGo (flags : Nat) (arguments : List Token) (total : Nat) :
    Nat → List String → String
  | _, [] => ""
  | job_id, input :: rest =>
    dryRunLine flags arguments total job_id input ++
      dryRunGo flags arguments total (job_id + 1) rest

/-- `dry_run` from `src/execute/dry.rs`, with the `InputIterator`'s
successful yields given as the list `inputs` (its `total_arguments` is
the spool total, i.e. `inputs.length`). -/
def dryRun (flags : Nat) (inputs : List String) (arguments : List Token) :
    String :=
  dryRunGo flags arguments inputs.length 0 inputs

/-! ## Input quoting and list merging (`src/arguments/mod.rs`) -/

/-- The escape set of `quote_inputs` and the second loop of
`quote_command`: double quote, backslash, single quote, space. -/
def quoteEscape (c : Char) : List Char :=
  if c = dquote ∨ c = bslash ∨ c = squote ∨ c = ' ' then [bslash, c] else [c]

/-- The escaping loop shared by `quote_inputs` and the tail of
`quote_command` (`src/arguments/mod.rs`). -/
def quoteInputsChars : List Char → List Char
  | [] => []
  | c :: rest => quoteEscape c ++ quoteInputsChars rest

/-- `quote_inputs` from `src/arguments/mod.rs`: escapes space, backslash
and quote characters. -/
def quoteInputs (input : String) : String :=
  String.mk (quoteInputsChars input.data)

/-- The first loop of `quote_command`: bytes are copied verbatim up to and
including the first space, after which the remainder is escaped. -/
def quoteCommandChars : List Char → List Char
  | [] => []
  | c :: rest =>
    if c = ' ' then c :: quoteInputsChars rest
    else c :: quoteCommandChars rest

/-- `quote_command` from `src/arguments/mod.rs`: same operation as
`quote_inputs` but the first word is not escaped. -/
def quoteCommand (input : String) : String :=
  String.mk (quoteCommandChars input.data)

/-- `merge_lists` from `src/arguments/mod.rs`: truncates `original` to
`append`'s length when longer, then pushes a space and the matching
`append` element onto each remaining member. -/
def mergeLists (original append : List String) : List String :=
  let original :=
    if original.length > append.length then original.take append.length
    else original
  List.zipWith (fun input element => input ++ " " ++ element) original append

/-! ## Input spooler (`src/arguments/mod.rs`) -/

/-- Modelled from the spec: the `permutate` crate's `Permutator` is an
external collaborator.  Per spec sections 4.2 and the glossary, it yields
the cartesian product of the lists in lexicographic list order, the last
list varying fastest. -/
def cartesianProduct : List (List String) → List (List String)
  | [] => [[]]
  | list :: rest =>
    list.flatMap fun x => (cartesianProduct rest).map fun tuple => x :: tuple

/-- A permutation written to disk: its members joined by single spaces
(first member, then `" " ++ member` for each further member, as the inner
`iter` loops of `write_inputs_to_disk` do). -/
def renderPerm (perm : List String) : String :=
  joinSpaces perm

/-- The `max_args >= 2` permutation loop of `write_inputs_to_disk`
(`src/arguments/mod.rs` lines 614-664).  State: `idx` is
`max_args_index`, `count` is `number_of_arguments`, `content` the bytes
written so far.  Note the loop writes no final newline after an
incomplete last group. -/
def multiGo (m : Nat) : Nat → Nat → String → List (List String) → String × Nat
  | _, count, content, [] => (content, count)
  | idx, count, content, perm :: rest =>
    if idx = m then
      multiGo m (idx - 1) (count + 1) (content ++ renderPerm perm) rest
    else if idx = 1 then
      multiGo m m count (content ++ " " ++ renderPerm perm ++ "\n") rest
    else
      multiGo m (idx - 1) count (content ++ " " ++ renderPerm perm) rest

/-- Rust's `slice::chunks`: consecutive groups of `n` elements, the last
group possibly shorter (the source only calls it with `n ≥ 2`; for the
`max_args < 2` branches `chunksOf 1` recovers one input per record). -/
def chunksOf (n : Nat) (l : List String) : List (List String) :=
  match l with
  | [] => []
  | x :: xs => (x :: xs.take (n - 1)) :: chunksOf n (xs.drop (n - 1))
termination_by l.length
decreasing_by simp [List.length_drop]; omega

/-- `write_inputs_to_disk` from `src/arguments/mod.rs`, returning the
bytes written to `unprocessed` and `number_of_arguments`.  `none` models
the `permutator.next().unwrap()` panic on an empty product.  The
single-list `max_args >= 2` branch walks `current_inputs.chunks(max_args)`
and writes each chunk space-joined with a trailing newline, as the
source's `while index != max_index` loop does. -/
def writeInputsToDisk (lists : List (List String))
    (current_inputs : List String) (max_args : Nat) : Option (String × Nat) :=
  if lists.length > 1 then
    match cartesianProduct lists with
    | [] => none
    | first :: rest =>
      if max_args < 2 then
        some (renderPerm first ++ "\n" ++
          strConcat (rest.map fun perm => renderPerm perm ++ "\n"),
          1 + rest.length)
      else
        some (multiGo max_args (max_args - 1) 1 (renderPerm first) rest)
  else if max_args < 2 then
    some (strConcat (current_inputs.map fun input => input ++ "\n"),
      current_inputs.length)
  else
    some (strConcat ((chunksOf max_args current_inputs).map fun chunk =>
      joinSpaces chunk ++ "\n"),
      (chunksOf max_args current_inputs).length)

/-- The `parse_line` closure of `write_stdin_to_disk`
(`src/arguments/mod.rs`): inputs are command-escaped when they are
commands and `--quote` was passed. -/
def parseLineStdin (inputs_are_commands quote_enabled : Bool)
    (line : String) : String :=
  if inputs_are_commands && quote_enabled then quoteCommand line else line

/-- The `max_args >= 2` line loop of `write_stdin_to_disk`
(`src/arguments/mod.rs` lines 507-541), over the effective (escaped,
non-empty) lines.  On exhaustion, a final newline is written when the
last group is incomplete (`max_args_index != max_args`). -/
def stdinGo (m : Nat) : Nat → Nat → String → List String → String × Nat
  | idx, count, content, [] =>
    (if idx ≠ m then content ++ "\n" else content, count)
  | idx, count, content, line :: rest =>
    if idx = m then
      stdinGo m (idx - 1) (count + 1) (content ++ line) rest
    else if idx = 1 then
      stdinGo m m count (content ++ " " ++ line ++ "\n") rest
    else
      stdinGo m (idx - 1) count (content ++ " " ++ line) rest

/-- The effective standard-input lines: escaped by `parse_line`, with
empty results skipped (`if line.is_empty() continue`). -/
def effectiveStdin (inputs_are_commands quote_enabled : Bool)
    (lines : List String) : List String :=
  (lines.map (parseLineStdin inputs_are_commands quote_enabled)).filter
    fun line => !line.isEmpty

/-- `write_stdin_to_disk` from `src/arguments/mod.rs`, with the standard
input's lines given as `lines` (all reads succeed).  The per-line
`parse_line` application and the empty-line skip, interleaved with the
writes in the source, are hoisted into `effectiveStdin`, which the loops
then consume unchanged. -/
def writeStdinToDisk (max_args : Nat) (lines : List String)
    (inputs_are_commands quote_enabled : Bool) : String × Nat :=
  let effective := effectiveStdin inputs_are_commands quote_enabled lines
  if max_args < 2 then
    (strConcat (effective.map fun line => line ++ "\n"), effective.length)
  else
    stdinGo max_args max_args 0 "" effective

/-! ## Indexed input reader (`src/input_iterator/iterator.rs`) -/

/-- `ETA` from `src/input_iterator/iterator.rs` (`u64` fields). -/
structure ETA where
  left : Nat
  time : Nat
  average : Nat

/-- `ETA::write_to_stderr` from `src/input_iterator/iterator.rs`,
returning the bytes written to standard error.  Note the source writes
the decimal `remainder` first and appends the `"0"` pad after it when
`remainder < 10`. -/
def ETA.writeToStderr (e : ETA) (completed : Nat) : String :=
  let remainder := e.average % 1000000000 / 10000000
  "ETA: " ++ Nat.repr (e.time / 1000000000) ++
    "s Left: " ++ Nat.repr e.left ++
    " AVG: " ++ Nat.repr (e.average / 1000000000) ++ "." ++
    Nat.repr remainder ++ (if remainder < 10 then "0" else "") ++
    "s Completed: " ++ Nat.repr completed ++ "\n"

/-- Modelled from the spec: `src/disk_buffer.rs` is absent from `src/`.
`DiskBufferReader` keeps a fixed-size byte window (`data`) over the
`unprocessed` file; `file` is the not-yet-windowed remainder of the file,
`capacity` the number of bytes read by the last refill, and `ioFail`
makes a refill fail with a SPOOL_IO-style read error (spec section 7).
Window bytes are modelled as `Char`s: the spool is UTF-8 text. -/
structure DiskBufferReader where
  data : List Char
  file : List Char
  capacity : Nat
  ioFail : Bool

/-- Modelled from the spec: the window size, "default 8 KiB" (spec
section 4.3). -/
def BUFFER_SIZE : Nat := 8192

/-- Modelled from the spec: `DiskBufferReader::buffer(shift)` refills the
window starting at the first unconsumed byte, keeping the `shift` bytes
shifted to the left and reading as many bytes as fit after them. -/
def DiskBufferReader.refill (d : DiskBufferReader) (shift : Nat) :
    Except Unit DiskBufferReader :=
  if d.ioFail then .error ()
  else
    let readChars := d.file.take (BUFFER_SIZE - shift)
    .ok { d with data := d.data.take shift ++ readChars,
                 file := d.file.drop (BUFFER_SIZE - shift),
                 capacity := readChars.length }

/-- `InputIteratorErr` from `src/input_iterator` (the path and cause of
`FileRead` are dropped). -/
inductive InputIteratorErr where
  | fileRead
deriving DecidableEq

/-- `InputBuffer` from `src/input_iterator/iterator.rs`.  The fixed
`[usize; BUFFER_SIZE / 2]` array `indices` is modelled as a total
function from index to value (the source never grows it; out-of-range
accesses are not modelled). -/
structure InputBuffer where
  index : Nat
  start : Nat
  endIdx : Nat
  capacity : Nat
  disk_buffer : DiskBufferReader
  indices : Nat → Nat

/-- Positions of `\n` within the first `bytesRead` window bytes, in
order, as the `enumerate().filter(byte == newline)` loop of
`count_arguments` visits them. -/
def newlinePositions (data : List Char) (bytesRead : Nat) : List Nat :=
  ((data.take bytesRead).enum.filter fun p => p.2 = '\n').map fun p => p.1

/-- The `indices[newlines] = indice; newlines += 1` writes of
`count_arguments`, starting at slot `k`. -/
def writeIndices (f : Nat → Nat) (k : Nat) : List Nat → (Nat → Nat)
  | [] => f
  | p :: ps => writeIndices (fun i => if i = k then p else f i) (k + 1) ps

/-- `count_arguments` from `src/input_iterator/iterator.rs`: records the
newline offsets into `indices` from slot 1, then sets `capacity` to the
offset of the last recorded newline (`indices[newlines]`, which is the
untouched `indices[0]` when the window holds none) and advances `endIdx`
by the number of newlines. -/
def countArguments (b : InputBuffer) (bytesRead : Nat) : InputBuffer :=
  let ps := newlinePositions b.disk_buffer.data bytesRead
  let indices := writeIndices b.indices 1 ps
  { b with indices := indices,
           capacity := indices ps.length,
           endIdx := b.endIdx + ps.length }

/-- `InputIterator` from `src/input_iterator/iterator.rs`. -/
structure InputIterator where
  total_arguments : Nat
  curr_argument : Nat
  completed : Nat
  start_time : Nat
  average_time : Nat
  input_buffer : InputBuffer

/-- `InputIterator::buffer` from `src/input_iterator/iterator.rs`: refill
the disk window past the `capacity` bytes still unconsumed, advance
`start` past the previous window's last newline, re-index, and reset
`index`.  Modelled as a pure step; on a read failure the pre-call state
accompanies the error. -/
def InputIterator.bufferStep (s : InputIterator) :
    Except InputIteratorErr InputIterator :=
  match s.input_buffer.disk_buffer.refill s.input_buffer.capacity with
  | .error _ => .error .fileRead
  | .ok d =>
    let bytesRead := d.capacity
    let b := { s.input_buffer with disk_buffer := d,
                                   start := s.input_buffer.endIdx + 1 }
    let b := countArguments b bytesRead
    .ok { s with input_buffer := { b with index := 0 } }

/-- `InputIterator::eta` from `src/input_iterator/iterator.rs`.  The
`u64` subtraction and multiplication are wrapping in release builds,
modelled by the explicit `% 2 ^ 64`. -/
def InputIterator.eta (s : InputIterator) : ETA :=
  let left := (2 ^ 64 + s.total_arguments - s.completed) % 2 ^ 64
  { left := left,
    time := left * s.average_time % 2 ^ 64,
    average := s.average_time }

/-- The `// Update times` match shared by `next_value` and `next`:
`completed == 0` leaves the average, `== 1` sets it to the elapsed time,
and otherwise to elapsed time over completed count.  `now` stands for the
`time::precise_time_ns()` call. -/
def InputIterator.updateTimes (s : InputIterator) (now : Nat) : InputIterator :=
  match s.completed with
  | 0 => s
  | 1 => { s with average_time := now - s.start_time }
  | _ => { s with average_time := (now - s.start_time) / s.completed }

/-- `InputIterator::next_value` from `src/input_iterator/iterator.rs`:
writes the next input into the caller-supplied `buffer` (truncated
first), returning `none` when exhausted and propagating refill errors.
The `str::from_utf8_unchecked` on the window slice is the identity here
because the window is modelled as text. -/
def InputIterator.nextValue (s : InputIterator) (now : Nat) (buffer : String) :
    Option (Except InputIteratorErr Unit) × InputIterator × String :=
  if s.curr_argument = s.total_arguments then (none, s, buffer)
  else
    let refilled :=
      if s.curr_argument = s.input_buffer.endIdx then s.bufferStep else .ok s
    match refilled with
    | .error err => (some (.error err), s, buffer)
    | .ok s =>
      let endPos := s.input_buffer.indices (s.input_buffer.index + 1)
      let startPos :=
        if s.input_buffer.index = 0 then s.input_buffer.indices s.input_buffer.index
        else s.input_buffer.indices s.input_buffer.index + 1
      let s := s.updateTimes now
      let s := { s with curr_argument := s.curr_argument + 1,
                        input_buffer := { s.input_buffer with
                          index := s.input_buffer.index + 1 } }
      (some (.ok ()),
        s,
        String.mk ((s.input_buffer.disk_buffer.data.drop startPos).take
          (endPos - startPos)))

/-- `<InputIterator as Iterator>::next` from
`src/input_iterator/iterator.rs`: identical logic, but the slice is
returned as a fresh `String` (`String::from_utf8_lossy(..).into_owned()`,
again the identity on the text-modelled window). -/
def InputIterator.next (s : InputIterator) (now : Nat) :
    Option (Except InputIteratorErr String) × InputIterator :=
  if s.curr_argument = s.total_arguments then (none, s)
  else
    let refilled :=
      if s.curr_argument = s.input_buffer.endIdx then s.bufferStep else .ok s
    match refilled with
    | .error err => (some (.error err), s)
    | .ok s =>
      let endPos := s.input_buffer.indices (s.input_buffer.index + 1)
      let startPos :=
        if s.input_buffer.index = 0 then s.input_buffer.indices s.input_buffer.index
        else s.input_buffer.indices s.input_buffer.index + 1
      let s := s.updateTimes now
      let s := { s with curr_argument := s.curr_argument + 1,
                        input_buffer := { s.input_buffer with
                          index := s.input_buffer.index + 1 } }
      (some (.ok (String.mk ((s.input_buffer.disk_buffer.data.drop startPos).take
          (endPos - startPos)))),
        s)

/-! ## Specification-side definitions

These phrase properties the way the specification (or an amended claim)
words them, to be compared against the source-derived definitions
above. -/

/-- The SHELL_QUOTE escape set of the spec's glossary: the characters
`$ \ > < ^ & # ! * ' " \x60 ~ \x7b \x7d [ ] ( ) ; | ?` and ASCII
space. -/
def shellQuoteSpecChar (c : Char) : Bool :=
  c = '$' ∨ c = bslash ∨ c = '>' ∨ c = '<' ∨ c = '^' ∨ c = '&' ∨ c = '#' ∨
    c = '!' ∨ c = '*' ∨ c = squote ∨ c = dquote ∨ c = btick ∨ c = '~' ∨
    c = lbrace ∨ c = rbrace ∨ c = '[' ∨ c = ']' ∨ c = '(' ∨ c = ')' ∨
    c = ';' ∨ c = '|' ∨ c = '?' ∨ c = ' '

/-- The glossary's SHELL_QUOTE scheme: each character of the set is
prefixed with a backslash. -/
def shellQuoteSpec (s : String) : String :=
  String.mk (s.data.flatMap fun c =>
    if shellQuoteSpecChar c then [bslash, c] else [c])

/-- The escaping `quote_command` actually performs, phrased as the
amended claim words it: the first space-delimited word, through the
first space, is copied verbatim; each later character in the set
`" \ '` and space is prefixed with a backslash. -/
def specQuoteCommand (input : String) : String :=
  let firstWord := input.data.takeWhile fun c => c ≠ ' '
  match input.data.drop firstWord.length with
  | [] => String.mk firstWord
  | sp :: tail => String.mk (firstWord ++ [sp] ++ tail.flatMap quoteEscape)

/-- The ETA line as claim C9 states it: `<hundredths>` is the two-digit
zero-padded value of `(a % 10^9) / 10^7` (pad on the left). -/
def pad2Left (r : Nat) : String :=
  if r < 10 then "0" ++ Nat.repr r else Nat.repr r

/-- The full ETA line of claim C9, for completed count `k`, remaining
count `n` and average `a` nanoseconds. -/
def claimEtaLine (k n a : Nat) : String :=
  "ETA: " ++ Nat.repr (n * a / 1000000000) ++ "s Left: " ++ Nat.repr n ++
    " AVG: " ++ Nat.repr (a / 1000000000) ++ "." ++
    pad2Left (a % 1000000000 / 10000000) ++
    "s Completed: " ++ Nat.repr k ++ "\n"

/-- The hundredths field as the code renders it (amended claim): the
decimal digits of `r`, followed by a `"0"` pad on the right when
`r < 10`, so a value of 5 renders as `.50`. -/
def hundredthsRendered (r : Nat) : String :=
  Nat.repr r ++ (if r < 10 then "0" else "")

/-- The ETA line of the amended claim C9. -/
def amendedEtaLine (k n a : Nat) : String :=
  "ETA: " ++ Nat.repr (n * a / 1000000000) ++ "s Left: " ++ Nat.repr n ++
    " AVG: " ++ Nat.repr (a / 1000000000) ++ "." ++
    hundredthsRendered (a % 1000000000 / 10000000) ++
    "s Completed: " ++ Nat.repr k ++ "\n"

/-- The token sequence of the template `echo \x7b#\x7d-\x7b%\x7d-\x7b\x7d`. -/
def echoTemplate : List Token :=
  [.argument "echo ", .job, .argument "-", .slot, .argument "-", .placeholder]

/-- The dry-run output as the amended claim C4 words it: one line per
input, the JOB placeholder replaced by the 0-based job index, the slot
by the literal `\x7bSLOT_ID\x7d`, counting up from `j`. -/
def dryRunExpected (j : Nat) : List String → String
  | [] => ""
  | input :: rest =>
    "echo " ++ Nat.repr j ++ "-\x7bSLOT_ID\x7d-" ++ input ++ "\n" ++
      dryRunExpected (j + 1) rest

/-- The `unprocessed` contents as the spec describes them: the inputs
grouped into consecutive chunks of `m`, each record space-joined and
LF-terminated. -/
def spoolRecords (m : Nat) (inputs : List String) : String :=
  strConcat ((chunksOf m inputs).map fun c => joinSpaces c ++ "\n")

/-- A concrete `InputBuffer` for closed instantiations. -/
def emptyInputBuffer : InputBuffer :=
  { index := 0, start := 0, endIdx := 0, capacity := 0,
    disk_buffer := { data := [], file := [], capacity := 0, ioFail := false },
    indices := fun _ => 0 }

/-- A concrete iterator state: 3 spooled inputs, 1 completed, average
wall time 50000000 ns (five hundredths of a second). -/
def sampleIterState : InputIterator :=
  { total_arguments := 3, curr_argument := 1, completed := 1,
    start_time := 0, average_time := 50000000,
    input_buffer := emptyInputBuffer }

/-! ## Helper lemmas -/

theorem strConcat_cons (s : String) (l : List String) :
    strConcat (s :: l) = s ++ strConcat l := rfl

theorem joinSpaces_cons_concat (x : String) :
    ∀ rest : List String,
      joinSpaces (x :: rest) = x ++ strConcat (rest.map fun s => " " ++ s)
  | [] => by simp [joinSpaces, strConcat]
  | y :: rest => by
    rw [show joinSpaces (x :: y :: rest) = x ++ " " ++ joinSpaces (y :: rest) from rfl,
      joinSpaces_cons_concat y rest]
    simp [strConcat, String.append_assoc]

theorem chunksOf_nil (n : Nat) : chunksOf n [] = [] := by
  rw [chunksOf]

theorem chunksOf_cons (n : Nat) (x : String) (xs : List String) :
    chunksOf n (x :: xs) =
      (x :: xs.take (n - 1)) :: chunksOf n (xs.drop (n - 1)) := by
  rw [chunksOf]

theorem chunksOf_one : ∀ l : List String, chunksOf 1 l = l.map fun x => [x]
  | [] => by rw [chunksOf_nil]; rfl
  | x :: xs => by
    rw [chunksOf_cons]
    simp only [Nat.sub_self, List.take_zero, List.drop_zero, List.map_cons]
    rw [chunksOf_one xs]

theorem chunksOf_length (n : Nat) (hn : 1 ≤ n) :
    ∀ (N : Nat) (l : List String), l.length ≤ N →
      (chunksOf n l).length = (l.length + n - 1) / n := by
  intro N
  induction N with
  | zero =>
    intro l hl
    have : l = [] := List.eq_nil_of_length_eq_zero (Nat.le_zero.mp hl)
    subst this
    rw [chunksOf_nil]
    simp only [List.length_nil, Nat.zero_add]
    rw [Nat.div_eq_of_lt (show n - 1 < n by omega)]
  | succ N ih =>
    intro l hl
    match l with
    | [] =>
      rw [chunksOf_nil]
      simp only [List.length_nil, Nat.zero_add]
      rw [Nat.div_eq_of_lt (show n - 1 < n by omega)]
    | x :: xs =>
      rw [chunksOf_cons]
      have hxs : (xs.drop (n - 1)).length ≤ N := by
        simp only [List.length_drop]
        have := List.length_cons x xs ▸ hl
        omega
      rw [List.length_cons, ih _ hxs]
      simp only [List.length_drop, List.length_cons]
      rcases le_or_lt (n - 1) xs.length with h | h
      · have h1 : xs.length - (n - 1) + n - 1 = xs.length := by omega
        have h2 : xs.length + 1 + n - 1 = xs.length + n := by omega
        rw [h1, h2, Nat.add_div_right _ (by omega)]
      · have h1 : xs.length - (n - 1) + n - 1 = n - 1 := by omega
        have h2 : xs.length + 1 + n - 1 = xs.length + n := by omega
        rw [h1, h2, Nat.add_div_right _ (by omega),
          Nat.div_eq_of_lt (by omega : n - 1 < n),
          Nat.div_eq_of_lt (by omega : xs.length < n)]

theorem chunksOf_flatten (n : Nat) :
    ∀ (N : Nat) (l : List String), l.length ≤ N →
      (chunksOf n l).flatten = l := by
  intro N
  induction N with
  | zero =>
    intro l hl
    have : l = [] := List.eq_nil_of_length_eq_zero (Nat.le_zero.mp hl)
    subst this
    rw [chunksOf_nil]; rfl
  | succ N ih =>
    intro l hl
    match l with
    | [] => rw [chunksOf_nil]; rfl
    | x :: xs =>
      rw [chunksOf_cons]
      have hxs : (xs.drop (n - 1)).length ≤ N := by
        simp only [List.length_drop]
        have := List.length_cons x xs ▸ hl
        omega
      simp only [List.flatten_cons, ih _ hxs, List.cons_append,
        List.take_append_drop]

theorem chunksOf_shape (n : Nat) (hn : 1 ≤ n) :
    ∀ (N : Nat) (l : List String), l.length ≤ N →
      ((chunksOf n l).all fun c => !c.isEmpty && decide (c.length ≤ n)) = true := by
  intro N
  induction N with
  | zero =>
    intro l hl
    have : l = [] := List.eq_nil_of_length_eq_zero (Nat.le_zero.mp hl)
    subst this
    rw [chunksOf_nil]; rfl
  | succ N ih =>
    intro l hl
    match l with
    | [] => rw [chunksOf_nil]; rfl
    | x :: xs =>
      rw [chunksOf_cons]
      have hxs : (xs.drop (n - 1)).length ≤ N := by
        simp only [List.length_drop]
        have := List.length_cons x xs ▸ hl
        omega
      simp only [List.all_cons, ih _ hxs, Bool.and_true, List.isEmpty_cons,
        Bool.not_false, Bool.true_and, decide_eq_true_eq, List.length_cons,
        List.length_take]
      omega

theorem stdinGo_nil (m idx count : Nat) (content : String) :
    stdinGo m idx count content [] =
      (if idx ≠ m then content ++ "\n" else content, count) := rfl

theorem stdinGo_cons (m idx count : Nat) (content l : String)
    (rest : List String) :
    stdinGo m idx count content (l :: rest) =
      if idx = m then stdinGo m (idx - 1) (count + 1) (content ++ l) rest
      else if idx = 1 then
        stdinGo m m count (content ++ " " ++ l ++ "\n") rest
      else stdinGo m (idx - 1) count (content ++ " " ++ l) rest := rfl

theorem stdinGo_mid (m : Nat) (hm : 2 ≤ m) :
    ∀ (j : Nat), 1 ≤ j → j < m →
      ∀ (count : Nat) (content : String) (ls : List String),
        stdinGo m j count content ls =
          if ls.length < j then
            (content ++ strConcat (ls.map fun l => " " ++ l) ++ "\n", count)
          else
            stdinGo m m count
              (content ++ strConcat ((ls.take j).map fun l => " " ++ l) ++ "\n")
              (ls.drop j) := by
  intro j
  induction j with
  | zero => intro h; exact absurd h (by omega)
  | succ j ih =>
    intro _ hjm count content ls
    match ls with
    | [] =>
      rw [stdinGo_nil, if_pos (show j + 1 ≠ m by omega),
        if_pos (show ([] : List String).length < j + 1 by simp)]
      simp only [List.map_nil, strConcat, String.append_empty]
    | l :: rest =>
      rcases Nat.eq_zero_or_pos j with hj | hj
      · subst hj
        rw [stdinGo_cons, if_neg (show ¬(0 + 1 = m) by omega),
          if_pos (show 0 + 1 = 1 by rfl),
          if_neg (show ¬(l :: rest).length < 0 + 1 by simp)]
        simp only [Nat.zero_add, List.take_cons, List.take_zero,
          List.drop_succ_cons, List.drop_zero, List.map_cons, List.map_nil,
          strConcat, String.append_empty, String.append_assoc]
      · rw [stdinGo_cons, if_neg (show ¬(j + 1 = m) by omega),
          if_neg (show ¬(j + 1 = 1) by omega), Nat.add_sub_cancel,
          ih hj (by omega) count (content ++ " " ++ l) rest]
        by_cases hlen : rest.length < j
        · rw [if_pos hlen,
            if_pos (show (l :: rest).length < j + 1 by
              simp only [List.length_cons]; omega)]
          simp only [List.map_cons, strConcat, String.append_assoc]
        · rw [if_neg hlen,
            if_neg (show ¬(l :: rest).length < j + 1 by
              simp only [List.length_cons]; omega),
            List.take_succ_cons, List.drop_succ_cons]
          simp only [List.map_cons, strConcat, String.append_assoc]

theorem stdinGo_fresh (m : Nat) (hm : 2 ≤ m) :
    ∀ (N : Nat) (ls : List String), ls.length ≤ N →
      ∀ (count : Nat) (content : String),
        stdinGo m m count content ls =
          (content ++
            strConcat ((chunksOf m ls).map fun c => joinSpaces c ++ "\n"),
           count + (chunksOf m ls).length) := by
  intro N
  induction N with
  | zero =>
    intro ls hl count content
    have : ls = [] := List.eq_nil_of_length_eq_zero (Nat.le_zero.mp hl)
    subst this
    rw [stdinGo_nil, if_neg (show ¬m ≠ m by simp), chunksOf_nil]
    simp [strConcat]
  | succ N ih =>
    intro ls hl count content
    match ls with
    | [] =>
      rw [stdinGo_nil, if_neg (show ¬m ≠ m by simp), chunksOf_nil]
      simp [strConcat]
    | l :: rest =>
      rw [stdinGo_cons, if_pos rfl,
        stdinGo_mid m hm (m - 1) (by omega) (by omega)]
      have hrest : rest.length ≤ N := by
        have := List.length_cons l rest ▸ hl
        omega
      by_cases hlen : rest.length < m - 1
      · rw [if_pos hlen]
        rw [chunksOf_cons,
          List.take_of_length_le (by omega : rest.length ≤ m - 1),
          List.drop_eq_nil_of_le (by omega : rest.length ≤ m - 1),
          chunksOf_nil]
        simp only [List.map_cons, List.map_nil, strConcat, List.length_cons,
          List.length_nil, joinSpaces_cons_concat, String.append_empty,
          String.append_assoc]
      · rw [if_neg hlen]
        rw [ih (rest.drop (m - 1)) (by simp only [List.length_drop]; omega)]
        rw [chunksOf_cons]
        simp only [List.map_cons, strConcat, List.length_cons,
          joinSpaces_cons_concat, String.append_assoc]
        rw [Prod.mk.injEq]
        exact ⟨rfl, by omega⟩

theorem quoteInputsChars_flatMap :
    ∀ l : List Char, quoteInputsChars l = l.flatMap quoteEscape
  | [] => rfl
  | c :: rest => by
    rw [show quoteInputsChars (c :: rest) = quoteEscape c ++ quoteInputsChars rest
        from rfl,
      quoteInputsChars_flatMap rest, List.flatMap_cons]

theorem quoteCommandChars_spec :
    ∀ l : List Char,
      quoteCommandChars l =
        (l.takeWhile fun c => c ≠ ' ') ++
          (match l.drop (l.takeWhile fun c => c ≠ ' ').length with
           | [] => []
           | sp :: tail => sp :: tail.flatMap quoteEscape)
  | [] => rfl
  | c :: rest => by
    by_cases hc : c = ' '
    · subst hc
      rw [show quoteCommandChars (' ' :: rest) = ' ' :: quoteInputsChars rest
          from by rw [quoteCommandChars]; simp,
        quoteInputsChars_flatMap rest]
      simp [List.takeWhile_cons]
    · rw [show quoteCommandChars (c :: rest) = c :: quoteCommandChars rest
          from by rw [quoteCommandChars]; simp [hc],
        quoteCommandChars_spec rest]
      simp only [List.takeWhile_cons, hc, ne_eq, not_false_eq_true,
        decide_True, if_true, List.length_cons, List.drop_succ_cons,
        List.cons_append]

theorem dryRunLine_echo (total j : Nat) (input : String) :
    dryRunLine DRY_RUN echoTemplate total j input =
      "echo " ++ Nat.repr j ++ "-\x7bSLOT_ID\x7d-" ++ input ++ "\n" := by
  have h1 : (64 &&& 2 : Nat) = 0 := by decide
  have h2 : (64 &&& 128 : Nat) = 0 := by decide
  simp [dryRunLine, buildArguments, DRY_RUN, PIPE_IS_ENABLED, SHELL_QUOTE,
    echoTemplate, buildToken, appendArgument, placeholderExists, h1, h2,
    String.append_assoc]

theorem dryRunGo_echo (total : Nat) :
    ∀ (inputs : List String) (j : Nat),
      dryRunGo DRY_RUN echoTemplate total j inputs = dryRunExpected j inputs
  | [], _ => rfl
  | input :: rest, j => by
    rw [show dryRunGo DRY_RUN echoTemplate total j (input :: rest) =
        dryRunLine DRY_RUN echoTemplate total j input ++
          dryRunGo DRY_RUN echoTemplate total (j + 1) rest from rfl,
      dryRunGo_echo total rest (j + 1), dryRunLine_echo, dryRunExpected]

/-! ## Claim theorems -/

/-- C1 (counterexample): the claim says a tokenizer out-of-range
positional reference exits with code 2, but `main` exits with code 1 on
every tokenizer error: at the template `\x7b5\x7d` over a 1-line spool,
the exit code is 1, not 2. -/
theorem c1_oob_exit_counterexample :
    tokenizeExitCode "\x7b5\x7d".data ["a"] 1 = some 1 ∧
    tokenizeExitCode "\x7b5\x7d".data ["a"] 1 ≠ some 2 :=
  ⟨rfl, by decide⟩

/-- C1 (amended): if tokenization fails (in particular on an out-of-range
positional token), the process exits with code 1, the same code the
argument-parser's pre-dispatch fatal errors use. -/
theorem c1_oob_exits_one :
    (∀ (template : List Char) (fileLines : List String) (nargs : Nat)
      (e : TokenErr),
      tokenize template fileLines nargs = some (.error e) →
      tokenizeExitCode template fileLines nargs = some 1) ∧
    parseErrExitCode = 1 := by
  refine ⟨fun template fileLines nargs e h => ?_, rfl⟩
  unfold tokenizeExitCode
  rw [h]

/-- C1 (witness): the amended theorem at the out-of-bounds template
`\x7b5\x7d` over a 1-line spool. -/
theorem c1_oob_exits_one_witness :
    tokenizeExitCode "\x7b5\x7d".data ["a"] 1 = some 1 :=
  c1_oob_exits_one.1 "\x7b5\x7d".data ["a"] 1 .outOfBounds rfl

/-- C2: for the bare form `\x7b2\x7d` over a 1-input spool the tokenizer
returns `Err(OutOfBounds)` as the claim states, but for the spec'd form
`\x7b2.\x7d` the bounds check is skipped and `into_argument` panics
(`nth(..).unwrap()` on `None`), modelled by `none` — not an `Err`. -/
theorem c2_spec_positional_oob_panics :
    tokenize "\x7b2\x7d".data ["a"] 1 = some (.error .outOfBounds) ∧
    tokenize "\x7b2.\x7d".data ["a"] 1 = none :=
  ⟨rfl, rfl⟩

/-- C3: the claim says a template whose only placeholder is
BASE_AND_SUFFIX gets nothing appended, but `append_argument`'s
`matches!` list omits `BaseAndSuffix`, so for the template
`\x7b/^t\x7d` (which tokenizes to `[BaseAndSuffix "t"]`) a space and the
raw input are appended anyway. -/
theorem c3_base_and_suffix_appends :
    tokenize "\x7b/^t\x7d".data [] 0 = some (.ok [.baseAndSuffix "t"]) ∧
    appendArgument "" [.baseAndSuffix "t"] "a" = " a" :=
  ⟨rfl, by decide⟩

/-- C4 (counterexample): with inputs `a, b` and the template
`echo \x7b#\x7d-\x7b%\x7d-\x7b\x7d`, the dry-run renderer writes job
numbers 0 and 1 (from `Iterator::enumerate`), not the claimed 1 and 2. -/
theorem c4_dry_run_counterexample :
    dryRun DRY_RUN ["a", "b"] echoTemplate =
      "echo 0-\x7bSLOT_ID\x7d-a\necho 1-\x7bSLOT_ID\x7d-b\n" ∧
    dryRun DRY_RUN ["a", "b"] echoTemplate ≠
      "echo 1-\x7bSLOT_ID\x7d-a\necho 2-\x7bSLOT_ID\x7d-b\n" :=
  ⟨rfl, by decide⟩

/-- C4 (amended): the dry-run renderer substitutes the 0-based job index
for the JOB placeholder and the literal `\x7bSLOT_ID\x7d` for the slot:
for every input sequence, the output of the template
`echo \x7b#\x7d-\x7b%\x7d-\x7b\x7d` is one line per input with indices
counting up from 0. -/
theorem c4_dry_run_zero_based :
    tokenize "echo \x7b#\x7d-\x7b%\x7d-\x7b\x7d".data ["a", "b"] 2 =
      some (.ok echoTemplate) ∧
    ∀ inputs : List String,
      dryRun DRY_RUN inputs echoTemplate = dryRunExpected 0 inputs :=
  ⟨rfl, fun inputs => dryRunGo_echo inputs.length inputs 0⟩

/-- C5: the claim says every record written to `unprocessed` is
LF-terminated, but the cartesian-product branch with `max_args >= 2`
writes no final newline after an incomplete last group: lists
`[a,b,c]` and `[x]` with `max_args = 2` produce `"a x b x\nc x"`,
whose final record `c x` has no terminating LF. -/
theorem c5_multi_list_missing_lf :
    writeInputsToDisk [["a", "b", "c"], ["x"]] [] 2 =
      some ("a x b x\nc x", 2) ∧
    "a x b x\nc x".data.getLast? ≠ some '\n' :=
  ⟨rfl, by decide⟩

/-- C6: for every input sequence and `max_args`, both the single-list
writer and the stdin writer emit the inputs grouped into consecutive
chunks of `max 1 max_args`, each record space-joined, and report
`ceil(T / max(1, max_args))` as the total; every chunk is non-empty, of
size at most `max 1 max_args`, and the chunks concatenate back to the
inputs. -/
theorem c6_spool_record_count :
    ∀ (inputs lines : List String) (max_args : Nat) (iac qe : Bool),
      writeInputsToDisk [inputs] inputs max_args =
        some (spoolRecords (max 1 max_args) inputs,
          (inputs.length + max 1 max_args - 1) / max 1 max_args) ∧
      writeStdinToDisk max_args lines iac qe =
        (spoolRecords (max 1 max_args) (effectiveStdin iac qe lines),
          ((effectiveStdin iac qe lines).length + max 1 max_args - 1) /
            max 1 max_args) ∧
      ((chunksOf (max 1 max_args) inputs).all fun c =>
        !c.isEmpty && decide (c.length ≤ max 1 max_args)) = true ∧
      (chunksOf (max 1 max_args) inputs).flatten = inputs := by
  intro inputs lines max_args iac qe
  refine ⟨?_, ?_, chunksOf_shape _ (by omega) inputs.length inputs le_rfl,
    chunksOf_flatten _ inputs.length inputs le_rfl⟩
  · by_cases h : max_args < 2
    · have hm : max 1 max_args = 1 := by omega
      rw [hm]
      unfold writeInputsToDisk spoolRecords
      rw [if_neg (by simp), if_pos h, chunksOf_one]
      have hfun : ((fun c => joinSpaces c ++ "\n") ∘ fun x : String => [x]) =
          fun input => input ++ "\n" := funext fun x => rfl
      simp [List.map_map, hfun]
    · have hm : max 1 max_args = max_args := by omega
      rw [hm]
      unfold writeInputsToDisk spoolRecords
      rw [if_neg (by simp), if_neg h,
        chunksOf_length max_args (by omega) inputs.length inputs le_rfl]
  · by_cases h : max_args < 2
    · have hm : max 1 max_args = 1 := by omega
      rw [hm]
      unfold writeStdinToDisk spoolRecords
      rw [if_pos h, chunksOf_one]
      have hfun : ((fun c => joinSpaces c ++ "\n") ∘ fun x : String => [x]) =
          fun line => line ++ "\n" := funext fun x => rfl
      simp [List.map_map, hfun]
    · have hm : max 1 max_args = max_args := by omega
      rw [hm]
      unfold writeStdinToDisk spoolRecords
      rw [if_neg h,
        stdinGo_fresh max_args (by omega) (effectiveStdin iac qe lines).length
          (effectiveStdin iac qe lines) le_rfl 0 "",
        chunksOf_length max_args (by omega)
          (effectiveStdin iac qe lines).length (effectiveStdin iac qe lines)
          le_rfl]
      simp [String.empty_append]

/-- C7: the append-variant merge zips the append list element-wise into
the prior list with a single-space separator, truncating the prior list
to the append list's length first; in particular `[a,b,c]` with append
`[x,y]` becomes `[a x, b y]`. -/
theorem c7_merge_append_zip :
    (∀ original append : List String,
      mergeLists original append =
        List.zipWith (fun input element => input ++ " " ++ element)
          (original.take append.length) append) ∧
    mergeLists ["a", "b", "c"] ["x", "y"] = ["a x", "b y"] := by
  refine ⟨fun original append => ?_, by decide⟩
  unfold mergeLists
  by_cases h : original.length > append.length
  · rw [if_pos h]
  · rw [if_neg h, List.take_of_length_le (by omega)]

/-- C8 (counterexample): with `--quote` and inputs-as-commands, the
input `$` is spooled unchanged — `quote_command` escapes only quotes,
backslash and space, not the SHELL_QUOTE set of the claim, which would
produce `\x5c$`. -/
theorem c8_quote_counterexample :
    writeStdinToDisk 0 ["$"] true true = ("$\n", 1) ∧
    shellQuoteSpec "$" = "\x5c$" ∧
    quoteCommand "$" ≠ shellQuoteSpec "$" :=
  ⟨rfl, rfl, by decide⟩

/-- C8 (amended): when `--quote` is set and the inputs are themselves
commands, each input is escaped by `quote_command`: the first
space-delimited word, through the first space, is copied verbatim, and
each later character among double quote, backslash, single quote and
space is prefixed with a backslash. -/
theorem c8_quote_command_amended :
    (∀ input : String, quoteCommand input = specQuoteCommand input) ∧
    (∀ line : String, parseLineStdin true true line = quoteCommand line) := by
  refine ⟨fun input => ?_, fun line => rfl⟩
  unfold quoteCommand specQuoteCommand
  rw [quoteCommandChars_spec]
  simp only [ne_eq, decide_not]
  cases hd : input.data.drop
      (input.data.takeWhile fun c => !decide (c = ' ')).length with
  | nil => simp [hd]
  | cons sp tail => simp [hd]

/-- C9 (counterexample): at remaining count 2, average 50000000 ns and
completed count 1, the ETA line renders the hundredths value 5 as `.50`
(digits first, pad after), not the claimed zero-padded `.05`. -/
theorem c9_eta_counterexample :
    (sampleIterState.eta).writeToStderr 1 =
      "ETA: 0s Left: 2 AVG: 0.50s Completed: 1\n" ∧
    (sampleIterState.eta).writeToStderr 1 ≠ claimEtaLine 1 2 50000000 :=
  ⟨by decide, by decide⟩

/-- C9 (amended): for every iterator state with `completed ≤ total`
(totals within `u64` range and `remaining * average` not wrapping), the
ETA line written after `k` completed jobs is exactly
`ETA: <secs>s Left: <n> AVG: <secs>.<hundredths>s Completed: <k>\n`,
where the hundredths value `r = (a % 10^9) / 10^7` is rendered as its
decimal digits followed by a trailing `0` pad when `r < 10` (so 5
renders as `.50`). -/
theorem c9_eta_line_amended :
    ∀ (s : InputIterator) (k : Nat),
      s.completed ≤ s.total_arguments → s.total_arguments < 2 ^ 64 →
      (s.total_arguments - s.completed) * s.average_time < 2 ^ 64 →
      (s.eta).writeToStderr k =
        amendedEtaLine k (s.total_arguments - s.completed) s.average_time := by
  intro s k h1 h2 h3
  have hleft : (2 ^ 64 + s.total_arguments - s.completed) % 2 ^ 64 =
      s.total_arguments - s.completed := by
    have he : 2 ^ 64 + s.total_arguments - s.completed =
        2 ^ 64 + (s.total_arguments - s.completed) := by omega
    rw [he, Nat.add_mod_left, Nat.mod_eq_of_lt (by omega)]
  unfold InputIterator.eta ETA.writeToStderr amendedEtaLine hundredthsRendered
  simp only [hleft, Nat.mod_eq_of_lt h3, String.append_assoc]

/-- C9 (witness): the amended theorem at the sample state (total 3,
completed 1, average 50000000 ns) and completed count 1. -/
theorem c9_eta_line_witness :
    (sampleIterState.eta).writeToStderr 1 = amendedEtaLine 1 2 50000000 :=
  c9_eta_line_amended sampleIterState 1 (by decide) (by decide) (by decide)

/-- C10: over the text-modelled window (the claim's valid-UTF-8
hypothesis), `next_value` and `Iterator::next` are equivalent: mapping
`next_value`'s unit result to the buffer it filled yields exactly
`next`'s result, and both leave the iterator in the same state. -/
theorem c10_next_value_next_equiv :
    ∀ (s : InputIterator) (now : Nat) (buffer : String),
      ((s.nextValue now buffer).1.map
          (Except.map fun _ => (s.nextValue now buffer).2.2),
        (s.nextValue now buffer).2.1) = s.next now := by
  intro s now buffer
  by_cases h1 : s.curr_argument = s.total_arguments
  · simp [InputIterator.nextValue, InputIterator.next, h1]
  · cases hr : (if s.curr_argument = s.input_buffer.endIdx then s.bufferStep
        else Except.ok s) with
    | error e =>
      simp [InputIterator.nextValue, InputIterator.next, Except.map, h1, hr]
    | ok s2 =>
      simp [InputIterator.nextValue, InputIterator.next, Except.map, h1, hr]

